import Mathlib

/-!
Shallow embedding of the `gorm-generics` repository (files `repository.go`
and the unnamed helper file) and proofs about the claims of its
specification.

Modelling conventions:
* Go machine integers (`int`, `int64`) are modelled as `Int`; the source's
  `math.Max` / `math.Ceil` over `float64` values of integer origin are
  modelled by exact integer arithmetic (`max`, integer ceiling division).
* The ORM handle (`*gorm.DB`) is modelled as an immutable query-builder
  state `DBState` accumulated by the chain calls the source performs
  (`WithContext`, `Where`, `Limit`, `Offset`, `Preload`, `Model`);
  executing a terminal call (`Find`, `Count`, `Create`, `Save`, `Delete`)
  consults an oracle `Database` mapping the accumulated state to a result.
* Go's `interface{}` values relevant here are modelled by `GoAny`; an
  unchecked type assertion `x.(M)` panics on mismatch, which we model by
  the `GoOutcome.panicked` outcome, while the checked form `x, ok := y.(T)`
  is modelled by an `Option`-valued cast function.
* The unbounded `for` loop of `ChunkSlice` is modelled fuel-indexed:
  `none` means the loop has not finished within the given fuel, so
  divergence is "`none` for every fuel".
-/

namespace GormGenerics

/-- A caller-supplied `context.Context`, opaque to this layer. -/
structure Ctx where
  id : Nat
deriving DecidableEq, Repr

/-- An error value produced by the underlying database/ORM, opaque to this
layer (the code passes it through verbatim). -/
structure Err where
  code : Nat
deriving DecidableEq, Repr

/-- A dynamically typed Go value (`interface{}`) as far as this code can
observe it: it either holds a persistence model `M`, a domain entity `E`,
or a value of some other dynamic type. -/
inductive GoAny (M E : Type) where
  | ofM : M → GoAny M E
  | ofE : E → GoAny M E
  | other : GoAny M E
deriving DecidableEq, Repr

/-- Outcome of running a Go function body: normal return, returned error,
or a runtime panic (e.g. a failed unchecked type assertion). -/
inductive GoOutcome (α : Type) where
  | ok : α → GoOutcome α
  | err : Err → GoOutcome α
  | panicked : GoOutcome α
deriving DecidableEq, Repr

/-- A `Specification`: the two getters of the Go interface, a query
fragment plus its ordered bound parameter values (`V` is the type of
bound values). -/
structure Specification (V : Type) where
  GetQuery : String
  GetValues : List V
deriving DecidableEq, Repr

/-- One condition registered on the query builder: either a fragment with
bound values (`db.Where(q, vals...)`) or a query-by-example struct
(`db.Where(&x)`). -/
inductive WhereCond (V M E : Type) where
  | frag : String → List V → WhereCond V M E
  | byExample : GoAny M E → WhereCond V M E
deriving DecidableEq, Repr

/-- The query-builder state accumulated on a `*gorm.DB` value by the chain
calls the source performs before a terminal call. -/
structure DBState (V M E : Type) where
  ctx : Option Ctx
  conds : List (WhereCond V M E)
  limit : Option Int
  offset : Option Int
  preload : Bool
  modelTarget : Bool
deriving DecidableEq, Repr

variable {V M E : Type}

/-- The bare handle `r.db`: no context, no conditions, no limit/offset. -/
def initDB : DBState V M E :=
  { ctx := none, conds := [], limit := none, offset := none,
    preload := false, modelTarget := false }

/-- `db.WithContext(ctx)`. -/
def DBState.withContext (db : DBState V M E) (c : Ctx) : DBState V M E :=
  { db with ctx := some c }

/-- `db.Where(query, values...)`: appends one fragment condition. -/
def DBState.whereFrag (db : DBState V M E) (q : String) (vs : List V) : DBState V M E :=
  { db with conds := db.conds ++ [WhereCond.frag q vs] }

/-- `db.Where(&x)`: appends one query-by-example condition. -/
def DBState.whereExample (db : DBState V M E) (x : GoAny M E) : DBState V M E :=
  { db with conds := db.conds ++ [WhereCond.byExample x] }

/-- `db.Limit(n)`. -/
def DBState.limitTo (db : DBState V M E) (n : Int) : DBState V M E :=
  { db with limit := some n }

/-- `db.Offset(n)`. -/
def DBState.offsetTo (db : DBState V M E) (n : Int) : DBState V M E :=
  { db with offset := some n }

/-- `db.Preload(clause.Associations)`. -/
def DBState.preloadAssociations (db : DBState V M E) : DBState V M E :=
  { db with preload := true }

/-- `db.Model(model)`. -/
def DBState.modelOf (db : DBState V M E) : DBState V M E :=
  { db with modelTarget := true }

/-- The database behind the ORM, as an oracle from the accumulated
query-builder state to the result of each terminal call the source uses. -/
structure Database (V M E : Type) where
  findResult : DBState V M E → Except Err (List M)
  countResult : DBState V M E → Except Err Int
  createResult : DBState V M E → M → Except Err M
  saveResult : DBState V M E → M → Except Err M
  deleteResult : DBState V M E → M → Except Err Unit

/-- `GormRepository[M, E]` together with the conversion capability of the
`GormModel` interface (`ToEntity` / `FromEntity`; the latter returns
`interface{}` in Go, hence `GoAny`). -/
structure GormRepository (V M E : Type) where
  db : Database V M E
  ToEntity : M → E
  FromEntity : E → GoAny M E

/-- `PageConfig` (Go `Page int`, `Size int64`, and the two count-control
flags). -/
structure PageConfig where
  Page : Int
  Size : Int
  IgnoreCount : Bool
  ForceCount : Bool
deriving DecidableEq, Repr

/-- `PageResult[M, E]`: the data page (persistence models), derived count,
echoed page number. -/
structure PageResult (M : Type) where
  Data : List M
  Count : Int
  Page : Int
deriving DecidableEq, Repr

/-- The Go source's `math.Ceil(float64(a) / float64(b))` for integers of
database origin, modelled by exact arithmetic: the integer ceiling of the
true quotient `a / b` (for `b > 0`), written with Euclidean division. -/
def ceilOfQuotient (a b : Int) : Int := -((-a) / b)

/-- The count decision of `FindPagedWithLimit`:
`pageCfg.ForceCount || (pageCfg.Page == 0 && !pageCfg.IgnoreCount)`. -/
def shouldCountPage (cfg : PageConfig) : Bool :=
  cfg.ForceCount || (cfg.Page == 0 && !cfg.IgnoreCount)

/-- `getPreWarmDbForSelect`: starts from `r.db.WithContext(ctx)` and folds
each specification in as `Where(s.GetQuery(), s.GetValues()...)`. -/
def GormRepository.getPreWarmDbForSelect (_r : GormRepository V M E) (ctx : Ctx)
    (specification : List (Specification V)) : DBState V M E :=
  List.foldl (fun dbPrewarm s => dbPrewarm.whereFrag s.GetQuery s.GetValues)
    (initDB.withContext ctx) specification

/-- `FindWithLimit`: prewarm, `Limit(limit).Offset(offset).Find(&models)`,
then convert each row with `ToEntity`. -/
def GormRepository.FindWithLimit (r : GormRepository V M E) (ctx : Ctx)
    (limit offset : Int) (specifications : List (Specification V)) :
    Except Err (List E) :=
  let dbPrewarm := r.getPreWarmDbForSelect ctx specifications
  match r.db.findResult ((dbPrewarm.limitTo limit).offsetTo offset) with
  | Except.error e => Except.error e
  | Except.ok models => Except.ok (models.map r.ToEntity)

/-- `Find`: delegates to `FindWithLimit(ctx, -1, -1, specifications...)`. -/
def GormRepository.Find (r : GormRepository V M E) (ctx : Ctx)
    (specifications : List (Specification V)) : Except Err (List E) :=
  r.FindWithLimit ctx (-1) (-1) specifications

/-- `FindPaged`: delegates to `FindWithLimit(ctx, -1, -1, specifications...)`
exactly like `Find`. -/
def GormRepository.FindPaged (r : GormRepository V M E) (ctx : Ctx)
    (specifications : List (Specification V)) : Except Err (List E) :=
  r.FindWithLimit ctx (-1) (-1) specifications

/-- `FindAll`: delegates to `FindWithLimit(ctx, -1, -1)` with no
specifications. -/
def GormRepository.FindAll (r : GormRepository V M E) (ctx : Ctx) :
    Except Err (List E) :=
  r.FindWithLimit ctx (-1) (-1) []

/-- `Count`: prewarm, then `.Model(model).Count(&i)`. -/
def GormRepository.Count (r : GormRepository V M E) (ctx : Ctx)
    (specifications : List (Specification V)) : Except Err Int :=
  r.db.countResult ((r.getPreWarmDbForSelect ctx specifications).modelOf)

/-- `FindPagedWithLimit`: prewarm; maybe count (deriving
`Count = ceil(elementCount / max(1, Size))`); then
`Limit(int(minLimit)).Offset(pageCfg.Page).Find(&models)`; the fetched
models are stored in `Data` without entity conversion (the conversion loop
is commented out in the source). The `Option Err` component is the returned
`error`. -/
def GormRepository.FindPagedWithLimit (r : GormRepository V M E) (ctx : Ctx)
    (pageCfg : PageConfig) (specifications : List (Specification V)) :
    PageResult M × Option Err :=
  let dbPrewarm := r.getPreWarmDbForSelect ctx specifications
  let rs : PageResult M := { Data := [], Count := 0, Page := pageCfg.Page }
  let minLimit : Int := max 1 pageCfg.Size
  let afterCount : PageResult M × Option Err :=
    if shouldCountPage pageCfg then
      match r.db.countResult dbPrewarm.modelOf with
      | Except.error e => (rs, some e)
      | Except.ok elementCount =>
          ({ rs with Count := ceilOfQuotient elementCount minLimit }, none)
    else (rs, none)
  match afterCount with
  | (rsE, some e) => (rsE, some e)
  | (rs1, none) =>
    match r.db.findResult ((dbPrewarm.limitTo minLimit).offsetTo pageCfg.Page) with
    | Except.error e => (rs1, some e)
    | Except.ok models => ({ rs1 with Data := models }, none)

/-- Builder state at the terminal `Create` call of `Insert`:
`r.db.WithContext(ctx).Create(&model)`. -/
def InsertExecState (ctx : Ctx) : DBState V M E := initDB.withContext ctx

/-- Builder state at the terminal `Create` call of `InsertDirect`:
`r.db.WithContext(ctx).Create(&entity)`. -/
def InsertDirectExecState (ctx : Ctx) : DBState V M E := initDB.withContext ctx

/-- Builder state at the terminal `Create` call of `InsertFromInterface`:
`r.db.WithContext(ctx).Create(&data)`. -/
def InsertFromInterfaceExecState (ctx : Ctx) : DBState V M E := initDB.withContext ctx

/-- Builder state at the terminal `Delete` call of `Delete`:
`r.db.WithContext(ctx).Delete(model)`. -/
def DeleteExecState (ctx : Ctx) : DBState V M E := initDB.withContext ctx

/-- Builder state at the terminal `Delete` call of `DeleteById`:
`r.db.WithContext(ctx).Delete(&start, &id)` (the id is passed at the
terminal call, not through the builder). -/
def DeleteByIdExecState (ctx : Ctx) : DBState V M E := initDB.withContext ctx

/-- Builder state at the terminal `Save` call of `Update`:
`r.db.WithContext(ctx).Save(&model)`. -/
def UpdateExecState (ctx : Ctx) : DBState V M E := initDB.withContext ctx

/-- Builder state at the terminal `Save` call of `UpdateDirect`:
`r.db.WithContext(ctx).Save(&entity)`. -/
def UpdateDirectExecState (ctx : Ctx) : DBState V M E := initDB.withContext ctx

/-- Builder state at the terminal `First` call of `FindByID`:
`r.db.WithContext(ctx).First(&model, id)` (the id is passed at the
terminal call, not through the builder). -/
def FindByIDExecState (ctx : Ctx) : DBState V M E := initDB.withContext ctx

/-- Builder state at the terminal `First` call of `FindByIDWithOptions`:
`r.db.WithContext(ctx).Preload(clause.Associations).First(&model, id)`;
the `eagerLoad` flag is accepted but unused, exactly as in the source. -/
def FindByIDWithOptionsExecState (ctx : Ctx) (_eagerLoad : Bool) : DBState V M E :=
  (initDB.withContext ctx).preloadAssociations

/-- Builder state at the terminal `First` call of `FindByModel`:
`r.db.WithContext(ctx).Preload(clause.Associations).Where(entity).First(&model)`. -/
def FindByModelExecState (ctx : Ctx) (entity : M) : DBState V M E :=
  ((initDB.withContext ctx).preloadAssociations).whereExample (GoAny.ofM entity)

/-- Builder state at the terminal `Find` call of `FindByModelMulti`:
the source issues `r.db.Where(&entity).Find(&models)` on the bare handle;
the `ctx` parameter is received but never forwarded via `WithContext`. -/
def FindByModelMultiExecState (_ctx : Ctx) (entity : M) : DBState V M E :=
  initDB.whereExample (GoAny.ofM entity)

/-- Builder state at the terminal `Find` call of `FindByEntity`:
the source issues `r.db.Where(&e).Find(&models)` on the bare handle; the
`ctx` parameter is received but never forwarded via `WithContext`. -/
def FindByEntityExecState (_ctx : Ctx) (e : GoAny M E) : DBState V M E :=
  initDB.whereExample e

/-- Builder state at the terminal `Find` call of `FindByEntityWithOptions`:
the source issues `r.db.Where(e).Preload(clause.Associations).Find(&models)`
on the bare handle; the `ctx` parameter is received but never forwarded via
`WithContext`. -/
def FindByEntityWithOptionsExecState (_ctx : Ctx) (e : GoAny M E)
    (_eagerLoad : Bool) : DBState V M E :=
  (initDB.whereExample e).preloadAssociations

/-- `Insert`: `model := start.FromEntity(*entity).(M)` — an unchecked type
assertion, panicking unless the dynamic type is `M` — then
`Create(&model)` (which may populate the model, e.g. an auto-increment id),
then `*entity = model.ToEntity()`; the final entity value is returned. -/
def GormRepository.Insert (r : GormRepository V M E) (ctx : Ctx) (entity : E) :
    GoOutcome E :=
  match r.FromEntity entity with
  | GoAny.ofM model =>
    match r.db.createResult (InsertExecState ctx) model with
    | Except.error e => GoOutcome.err e
    | Except.ok model2 => GoOutcome.ok (r.ToEntity model2)
  | _ => GoOutcome.panicked

/-- `Update`: like `Insert` but with `Save(&model)`. -/
def GormRepository.Update (r : GormRepository V M E) (ctx : Ctx) (entity : E) :
    GoOutcome E :=
  match r.FromEntity entity with
  | GoAny.ofM model =>
    match r.db.saveResult (UpdateExecState ctx) model with
    | Except.error e => GoOutcome.err e
    | Except.ok model2 => GoOutcome.ok (r.ToEntity model2)
  | _ => GoOutcome.panicked

/-- `Delete`: `model := start.FromEntity(*entity).(M)` — the same unchecked
assertion — then `Delete(model)`. -/
def GormRepository.Delete (r : GormRepository V M E) (ctx : Ctx) (entity : E) :
    GoOutcome Unit :=
  match r.FromEntity entity with
  | GoAny.ofM model =>
    match r.db.deleteResult (DeleteExecState ctx) model with
    | Except.error e => GoOutcome.err e
    | Except.ok _ => GoOutcome.ok ()
  | _ => GoOutcome.panicked

/-- The SQL rendering of one registered condition, when it is a plain
fragment. -/
def condFragSQL : WhereCond V M E → Option (String × List V)
  | WhereCond.frag q vs => some (q, vs)
  | WhereCond.byExample _ => none

/-- Modelled from the spec (behaviour of the external ORM library, which is
not part of `src/`): successive `Where` fragments are rendered as one
`WHERE` clause joined by `AND` in registration order, with the bound
parameter lists concatenated in that same order. -/
def andJoin : List (String × List V) → Option (String × List V)
  | [] => none
  | c :: rest =>
    match andJoin rest with
    | none => some c
    | some (q, vs) => some (c.1 ++ " AND " ++ q, c.2 ++ vs)

/-- The rendered `WHERE` clause of a builder state's fragment conditions. -/
def condsSQL (conds : List (WhereCond V M E)) : Option (String × List V) :=
  andJoin (conds.filterMap condFragSQL)

/-- The generic `Map` helper: `us[i] = f(ts[i])`, same length. -/
def Map {T U : Type} (ts : List T) (f : T → U) : List U := ts.map f

/-- `MapDto`: converts each model with `ToEntity`, then performs the
checked assertion `any(et).(T)` (modelled by `castToT`); on failure the
element becomes the zero value of `T` (`*new(T)`, modelled by `zeroT`).
The `dtoType` argument only fixes the type in Go and is unused, as in the
source. -/
def MapDto {T : Type} (ToEntity : M → E) (castToT : E → Option T) (zeroT : T)
    (modelArray : List M) (_dtoType : T) : List T :=
  Map modelArray (fun ce =>
    match castToT (ToEntity ce) with
    | some etCasted => etCasted
    | none => zeroT)

/-- Result of a loop run that was given enough fuel: normal completion or a
runtime panic (out-of-range slice expression). -/
inductive LoopResult (α : Type) where
  | done : α → LoopResult α
  | panicked : LoopResult α
deriving DecidableEq, Repr

/-- The Go slice expression `slice[i:e]` (for `0 ≤ i ≤ e ≤ len`): elements
at indices `i, …, e-1`. -/
def goSlice {T : Type} (slice : List T) (i e : Int) : List T :=
  (slice.take e.toNat).drop i.toNat

/-- The `for` loop of `ChunkSlice`, fuel-indexed: one fuel unit per
iteration. `none` means the fuel ran out before the loop finished; Go
panics on `slice[i:e]` when `e < i` (the source only clamps `e` from
above, never below `i`). The loop index advances by `chunkSize` each
iteration, exactly as in the source. -/
def chunkLoop {T : Type} (chunkSize : Int) (slice : List T) :
    Nat → Int → Option (LoopResult (List (List T)))
  | 0, _ => none
  | fuel + 1, i =>
    if i < (slice.length : Int) then
      let e0 : Int := i + chunkSize
      let e : Int := if e0 > (slice.length : Int) then (slice.length : Int) else e0
      if e < i then some LoopResult.panicked
      else
        match chunkLoop chunkSize slice fuel (i + chunkSize) with
        | none => none
        | some LoopResult.panicked => some LoopResult.panicked
        | some (LoopResult.done rest) => some (LoopResult.done (goSlice slice i e :: rest))
    else some (LoopResult.done [])

/-- `ChunkSlice(slice, chunkSize)`: the loop started at `i = 0`. The fuel
`slice.length + 1` is sufficient for every terminating execution (when
`chunkSize ≥ 1` the index strictly increases each iteration), so `none`
here means the source loop diverges. -/
def ChunkSlice {T : Type} (slice : List T) (chunkSize : Int) :
    Option (LoopResult (List (List T))) :=
  chunkLoop chunkSize slice (slice.length + 1) 0

/-- Folding `whereFrag` over a specification list appends, in order, one
fragment condition per specification and changes nothing else. -/
theorem foldl_whereFrag_eq (specs : List (Specification V)) :
    ∀ init : DBState V M E,
      List.foldl (fun db s => db.whereFrag s.GetQuery s.GetValues) init specs =
        { init with conds := init.conds ++
            specs.map (fun s => WhereCond.frag s.GetQuery s.GetValues) } := by
  induction specs with
  | nil => intro init; simp
  | cons s rest ih =>
    intro init
    rw [List.foldl_cons, ih]
    simp [DBState.whereFrag, List.append_assoc]

/-- `getPreWarmDbForSelect` yields exactly: the supplied context, one
fragment condition per specification in supply order, and nothing else. -/
theorem getPreWarm_eq (r : GormRepository V M E) (ctx : Ctx)
    (specs : List (Specification V)) :
    r.getPreWarmDbForSelect ctx specs =
      { ctx := some ctx,
        conds := specs.map (fun s => WhereCond.frag s.GetQuery s.GetValues),
        limit := none, offset := none, preload := false, modelTarget := false } := by
  unfold GormRepository.getPreWarmDbForSelect
  rw [foldl_whereFrag_eq]
  rfl

/-- The exact-arithmetic model of `math.Ceil(float64(a)/float64(b))` agrees
with the mathematical ceiling of the rational quotient, for any positive
divisor. -/
theorem ceilOfQuotient_eq_ceil (a b : Int) (hb : 0 < b) :
    ceilOfQuotient a b = ⌈(a : ℚ) / (b : ℚ)⌉ := by
  have hq : b * ((-a) / b) + (-a) % b = -a := Int.ediv_add_emod (-a) b
  have h0 : 0 ≤ (-a) % b := Int.emod_nonneg _ (ne_of_gt hb)
  have h1 : (-a) % b < b := Int.emod_lt_of_pos _ hb
  have hbQ : (0 : ℚ) < (b : ℚ) := by exact_mod_cast hb
  have hqQ : (b : ℚ) * (((-a) / b : Int) : ℚ) + (((-a) % b : Int) : ℚ) = -(a : ℚ) := by
    exact_mod_cast hq
  have h0Q : (0 : ℚ) ≤ (((-a) % b : Int) : ℚ) := by exact_mod_cast h0
  have h1Q : (((-a) % b : Int) : ℚ) < (b : ℚ) := by exact_mod_cast h1
  symm
  rw [Int.ceil_eq_iff]
  constructor
  · rw [lt_div_iff₀ hbQ]
    push_cast [ceilOfQuotient]
    nlinarith [hqQ, h1Q]
  · rw [div_le_iff₀ hbQ]
    push_cast [ceilOfQuotient]
    nlinarith [hqQ, h0Q]

/-- Invariant of the `ChunkSlice` loop for a positive chunk size: given
fuel exceeding the remaining length, the loop finishes normally and its
chunks are the contiguous, order-preserving partition of the not yet
consumed suffix. -/
theorem chunkLoop_run {T : Type} (slice : List T) (k : Int) (hk : 1 ≤ k) :
    ∀ (fuel i : Nat), slice.length - i < fuel →
      ∃ cs, chunkLoop k slice fuel (i : Int) = some (LoopResult.done cs) ∧
        cs.flatten = slice.drop i ∧
        (∀ c ∈ cs, (c.length : Int) ≤ k) ∧
        (∀ c ∈ cs.dropLast, (c.length : Int) = k) ∧
        (cs = [] ↔ slice.length ≤ i) := by
  obtain ⟨k', rfl⟩ : ∃ n : Nat, k = (n : Int) := ⟨k.toNat, by omega⟩
  have hk1 : 1 ≤ k' := by exact_mod_cast hk
  intro fuel
  induction fuel with
  | zero => intro i h; omega
  | succ fuel ih =>
    intro i h
    by_cases hi : i < slice.length
    · have h1 : ((i : Int) < (slice.length : Int)) := by omega
      have h2 : ¬ ((if (i : Int) + (k' : Int) > (slice.length : Int)
            then (slice.length : Int) else (i : Int) + (k' : Int)) < (i : Int)) := by
        split_ifs <;> omega
      have hcast : (i : Int) + (k' : Int) = ((i + k' : Nat) : Int) := by push_cast; ring
      obtain ⟨rest, hrun, hflat, hle, hlast, hiff⟩ := ih (i + k') (by omega)
      have hrun' : chunkLoop (k' : Int) slice fuel ((i : Int) + (k' : Int)) =
          some (LoopResult.done rest) := by rw [hcast]; exact hrun
      have hchunk : goSlice slice (i : Int)
          (if (i : Int) + (k' : Int) > (slice.length : Int)
            then (slice.length : Int) else (i : Int) + (k' : Int)) =
          (slice.drop i).take k' := by
        unfold goSlice
        split_ifs with hcase
        · rw [Int.toNat_natCast, Int.toNat_natCast, List.take_length]
          have hlen : (slice.drop i).length ≤ k' := by
            rw [List.length_drop]; omega
          rw [List.take_of_length_le hlen]
        · rw [hcast, Int.toNat_natCast, Int.toNat_natCast, List.drop_take]
          have : i + k' - i = k' := by omega
          rw [this]
      refine ⟨(slice.drop i).take k' :: rest, ?_, ?_, ?_, ?_, ?_⟩
      · simp only [chunkLoop]
        rw [if_pos h1, if_neg h2, hrun']
        simp [hchunk]
      · rw [List.flatten_cons, hflat,
          show slice.drop (i + k') = (slice.drop i).drop k' from (List.drop_drop k' i slice).symm]
        exact List.take_append_drop k' (slice.drop i)
      · intro c hc
        rcases List.mem_cons.mp hc with rfl | hc
        · have : ((slice.drop i).take k').length ≤ k' := by
            rw [List.length_take]; omega
          omega
        · exact hle c hc
      · cases rest with
        | nil => simp
        | cons r rs =>
          intro c hc
          rw [List.dropLast_cons₂] at hc
          rcases List.mem_cons.mp hc with rfl | hc
          · have hne : ¬ slice.length ≤ i + k' := by
              intro hle2
              exact List.cons_ne_nil r rs (hiff.mpr hle2)
            have : ((slice.drop i).take k').length = k' := by
              rw [List.length_take, List.length_drop]; omega
            omega
          · exact hlast c hc
      · simp only [List.cons_ne_nil, false_iff]
        omega
    · have h1 : ¬ ((i : Int) < (slice.length : Int)) := by omega
      refine ⟨[], ?_, ?_, ?_, ?_, ?_⟩
      · simp only [chunkLoop]
        rw [if_neg h1]
      · rw [List.flatten_nil, List.drop_eq_nil_of_le (by omega)]
      · intro c hc; cases hc
      · intro c hc; cases hc
      · simp only [true_iff]; omega

example : ChunkSlice [1, 2, 3, 4, 5] 2 =
    some (LoopResult.done [[1, 2], [3, 4], [5]]) := by decide

example : ChunkSlice [1, 2, 3] (-1) = some LoopResult.panicked := by decide

example : chunkLoop 0 [1, 2, 3] 10 0 = none := by decide

example : ceilOfQuotient 5 2 = 3 := by decide

example : ceilOfQuotient 0 2 = 0 := by decide

/-- A concrete database used to instantiate the theorems below on
executable inputs. -/
def demoDb : Database Unit Nat Nat :=
  { findResult := fun _ => Except.ok [10, 20],
    countResult := fun _ => Except.ok 5,
    createResult := fun _ m => Except.ok m,
    saveResult := fun _ m => Except.ok m,
    deleteResult := fun _ _ => Except.ok () }

/-- A concrete repository over `demoDb` whose conversion capability is the
identity on `Nat` (so `FromEntity` always carries dynamic type `M`). -/
def demoRepo : GormRepository Unit Nat Nat :=
  { db := demoDb, ToEntity := fun m => m, FromEntity := fun e => GoAny.ofM e }

/-- Like `demoDb` but its count query fails. -/
def demoDbNoCount : Database Unit Nat Nat :=
  { demoDb with countResult := fun _ => Except.error (Err.mk 1) }

/-- Like `demoRepo` but over `demoDbNoCount`. -/
def demoRepoNoCount : GormRepository Unit Nat Nat :=
  { demoRepo with db := demoDbNoCount }

/-- A repository whose `FromEntity` returns a value of some dynamic type
other than `M`, so the unchecked assertions of `Insert`/`Update`/`Delete`
fail. -/
def demoRepoBad : GormRepository Unit Nat Nat :=
  { demoRepo with FromEntity := fun _ => GoAny.other }

/-- C4: the query-building step (`getPreWarmDbForSelect`) registers exactly
one `WHERE` fragment per specification, in supply order, carrying that
specification's bound values — no de-duplication, reordering, or
short-circuiting (the condition list is literally the `map` of the supplied
list, so duplicates survive and order is preserved) — and under the
`AND`-join rendering of the underlying ORM, applying `[s1, s2]` renders
the same single query as one specification `s1 AND s2` with the values
concatenated in order. -/
theorem specComposition_order (r : GormRepository V M E) (ctx : Ctx)
    (specs : List (Specification V)) (s1 s2 : Specification V) :
    (r.getPreWarmDbForSelect ctx specs).conds =
      specs.map (fun s => WhereCond.frag s.GetQuery s.GetValues) ∧
    condsSQL (r.getPreWarmDbForSelect ctx [s1, s2]).conds =
      condsSQL (r.getPreWarmDbForSelect ctx
        [⟨s1.GetQuery ++ " AND " ++ s2.GetQuery,
          s1.GetValues ++ s2.GetValues⟩]).conds := by
  constructor
  · rw [getPreWarm_eq]
  · rw [getPreWarm_eq, getPreWarm_eq]
    rfl

/-- C5: for every non-empty slice and positive chunk size, `ChunkSlice`
terminates with contiguous, order-preserving chunks whose concatenation is
the input, every chunk no longer than the chunk size, and every chunk but
possibly the last of exactly the chunk size. -/
theorem chunkSlice_partition {T : Type} (slice : List T) (chunkSize : Int)
    (_hne : slice ≠ []) (hk : 1 ≤ chunkSize) :
    ∃ cs, ChunkSlice slice chunkSize = some (LoopResult.done cs) ∧
      cs.flatten = slice ∧
      (∀ c ∈ cs, (c.length : Int) ≤ chunkSize) ∧
      (∀ c ∈ cs.dropLast, (c.length : Int) = chunkSize) := by
  obtain ⟨cs, h1, h2, h3, h4, _⟩ :=
    chunkLoop_run slice chunkSize hk (slice.length + 1) 0 (by omega)
  exact ⟨cs, by simpa [ChunkSlice] using h1, by simpa using h2, h3, h4⟩

/-- Witness for `chunkSlice_partition` at a concrete input. -/
theorem chunkSlice_partition_witness :
    ([1, 2, 3, 4, 5] : List Nat) ≠ [] ∧ (1 : Int) ≤ 2 ∧
    ∃ cs, ChunkSlice ([1, 2, 3, 4, 5] : List Nat) 2 = some (LoopResult.done cs) ∧
      cs.flatten = [1, 2, 3, 4, 5] ∧
      (∀ c ∈ cs, (c.length : Int) ≤ 2) ∧
      (∀ c ∈ cs.dropLast, (c.length : Int) = 2) :=
  ⟨by decide, by decide,
   chunkSlice_partition [1, 2, 3, 4, 5] 2 (by decide) (by decide)⟩

/-- C10: `ChunkSlice` terminates (normally) for every slice when
`chunkSize ≥ 1`; there is no guard for non-positive sizes, and on a
non-empty slice normal termination holds only under that precondition:
with `chunkSize = 0` the loop never finishes (the index does not advance),
and with `chunkSize < 0` the first slice expression is out of range. -/
theorem chunkSlice_termination {T : Type} (slice : List T) (chunkSize : Int) :
    (1 ≤ chunkSize →
      ∃ cs, ChunkSlice slice chunkSize = some (LoopResult.done cs)) ∧
    (slice ≠ [] → chunkSize = 0 →
      ∀ fuel, chunkLoop chunkSize slice fuel 0 = none) ∧
    (slice ≠ [] → chunkSize < 0 →
      ChunkSlice slice chunkSize = some LoopResult.panicked) := by
  refine ⟨?_, ?_, ?_⟩
  · intro hk
    obtain ⟨cs, h1, _⟩ :=
      chunkLoop_run slice chunkSize hk (slice.length + 1) 0 (by omega)
    exact ⟨cs, by simpa [ChunkSlice] using h1⟩
  · intro hne hz fuel
    subst hz
    induction fuel with
    | zero => rfl
    | succ fuel ih =>
      have hlen : 0 < slice.length := List.length_pos.mpr hne
      simp only [chunkLoop]
      rw [if_pos (show (0 : Int) < (slice.length : Int) by omega)]
      rw [if_neg (show ¬ ((0 : Int) + 0 > (slice.length : Int)) by omega)]
      rw [if_neg (show ¬ ((0 : Int) + 0 < (0 : Int)) by omega)]
      rw [show (0 : Int) + 0 = 0 by ring, ih]
  · intro hne hkneg
    have hlen : 0 < slice.length := List.length_pos.mpr hne
    unfold ChunkSlice
    simp only [chunkLoop]
    rw [if_pos (show (0 : Int) < (slice.length : Int) by omega)]
    rw [if_neg (show ¬ ((0 : Int) + chunkSize > (slice.length : Int)) by omega)]
    rw [if_pos (show (0 : Int) + chunkSize < (0 : Int) by omega)]

/-- Witness for `chunkSlice_termination` at concrete inputs, exercising all
three régimes of the chunk size. -/
theorem chunkSlice_termination_witness :
    (∃ cs, ChunkSlice ([1, 2, 3] : List Nat) 2 = some (LoopResult.done cs)) ∧
    (∀ fuel, chunkLoop 0 ([1, 2, 3] : List Nat) fuel 0 = none) ∧
    ChunkSlice ([1, 2, 3] : List Nat) (-1) = some LoopResult.panicked :=
  ⟨(chunkSlice_termination [1, 2, 3] 2).1 (by decide),
   (chunkSlice_termination [1, 2, 3] 0).2.1 (by decide) rfl,
   (chunkSlice_termination [1, 2, 3] (-1)).2.2 (by decide) (by decide)⟩

/-- C6: `Find` and `FindPaged` produce identical results, both equal to
`FindWithLimit` with limit `-1`, offset `-1` and the same specifications,
and `FindAll` equals `FindWithLimit` with limit `-1`, offset `-1` and no
specifications. -/
theorem find_delegation (r : GormRepository V M E) (ctx : Ctx)
    (specs : List (Specification V)) :
    r.Find ctx specs = r.FindPaged ctx specs ∧
    r.Find ctx specs = r.FindWithLimit ctx (-1) (-1) specs ∧
    r.FindAll ctx = r.FindWithLimit ctx (-1) (-1) [] :=
  ⟨rfl, rfl, rfl⟩

/-- C8: `MapDto` is total (same length, no error channel) and, at each
position, a failed checked assertion yields the zero value of the target
type while a successful one yields the asserted value. -/
theorem mapDto_zeroOnFailedAssertion {T : Type} (ToEntity : M → E)
    (castToT : E → Option T) (zeroT : T) (modelArray : List M) (dtoType : T) :
    (MapDto ToEntity castToT zeroT modelArray dtoType).length =
      modelArray.length ∧
    ∀ (i : Nat) (a : M), modelArray[i]? = some a →
      (castToT (ToEntity a) = none →
        (MapDto ToEntity castToT zeroT modelArray dtoType)[i]? = some zeroT) ∧
      (∀ v, castToT (ToEntity a) = some v →
        (MapDto ToEntity castToT zeroT modelArray dtoType)[i]? = some v) := by
  constructor
  · simp [MapDto, Map]
  · intro i a ha
    constructor
    · intro hnone
      simp [MapDto, Map, List.getElem?_map, ha, hnone]
    · intro v hv
      simp [MapDto, Map, List.getElem?_map, ha, hv]

/-- Witness for `mapDto_zeroOnFailedAssertion` at a concrete input whose
assertion always fails. -/
theorem mapDto_zeroOnFailedAssertion_witness :
    (MapDto (M := Nat) (E := Nat) (fun m => m) (fun _ => (none : Option Bool))
      false [1, 2] true).length = 2 ∧
    (MapDto (M := Nat) (E := Nat) (fun m => m) (fun _ => (none : Option Bool))
      false [1, 2] true)[0]? = some false :=
  ⟨(mapDto_zeroOnFailedAssertion (fun m => m) (fun _ => (none : Option Bool))
      false [1, 2] true).1,
   ((mapDto_zeroOnFailedAssertion (fun m => m) (fun _ => (none : Option Bool))
      false [1, 2] true).2 0 1 rfl).1 rfl⟩

/-- C9: when `FromEntity` yields a value of dynamic type `M`, the
unchecked assertions of `Insert`, `Update` and `Delete` succeed and the
operation proceeds (never panics); when it does not, all three panic —
there is no path turning the mismatch into a returned error, unlike the
checked assertion of `MapDto`. -/
theorem crud_uncheckedAssertion (r : GormRepository V M E) (ctx : Ctx)
    (entity : E) :
    ((∃ m, r.FromEntity entity = GoAny.ofM m) →
      r.Insert ctx entity ≠ GoOutcome.panicked ∧
      r.Update ctx entity ≠ GoOutcome.panicked ∧
      r.Delete ctx entity ≠ GoOutcome.panicked) ∧
    ((∀ m, r.FromEntity entity ≠ GoAny.ofM m) →
      r.Insert ctx entity = GoOutcome.panicked ∧
      r.Update ctx entity = GoOutcome.panicked ∧
      r.Delete ctx entity = GoOutcome.panicked) := by
  constructor
  · rintro ⟨m, hm⟩
    refine ⟨?_, ?_, ?_⟩
    · unfold GormRepository.Insert
      rw [hm]
      rcases hcr : r.db.createResult (InsertExecState ctx) m with e | m2 <;>
        simp [hcr]
    · unfold GormRepository.Update
      rw [hm]
      rcases hcr : r.db.saveResult (UpdateExecState ctx) m with e | m2 <;>
        simp [hcr]
    · unfold GormRepository.Delete
      rw [hm]
      rcases hcr : r.db.deleteResult (DeleteExecState ctx) m with e | u <;>
        simp [hcr]
  · intro hall
    cases hfe : r.FromEntity entity with
    | ofM m => exact absurd hfe (hall m)
    | ofE e =>
      refine ⟨?_, ?_, ?_⟩ <;>
        simp [GormRepository.Insert, GormRepository.Update,
          GormRepository.Delete, hfe]
    | other =>
      refine ⟨?_, ?_, ?_⟩ <;>
        simp [GormRepository.Insert, GormRepository.Update,
          GormRepository.Delete, hfe]

/-- Witness for `crud_uncheckedAssertion`: both régimes at concrete
repositories. -/
theorem crud_uncheckedAssertion_witness :
    (demoRepo.Insert (Ctx.mk 0) 4 ≠ GoOutcome.panicked ∧
     demoRepo.Update (Ctx.mk 0) 4 ≠ GoOutcome.panicked ∧
     demoRepo.Delete (Ctx.mk 0) 4 ≠ GoOutcome.panicked) ∧
    (demoRepoBad.Insert (Ctx.mk 0) 4 = GoOutcome.panicked ∧
     demoRepoBad.Update (Ctx.mk 0) 4 = GoOutcome.panicked ∧
     demoRepoBad.Delete (Ctx.mk 0) 4 = GoOutcome.panicked) :=
  ⟨(crud_uncheckedAssertion demoRepo (Ctx.mk 0) 4).1 ⟨4, rfl⟩,
   (crud_uncheckedAssertion demoRepoBad (Ctx.mk 0) 4).2
     (fun m h => by simp [demoRepoBad, demoRepo] at h)⟩

/-- C1: `FindPagedWithLimit` issues its data query at the builder state
whose `LIMIT` is the effective page size `max 1 Size` and whose `OFFSET`
is the raw requested page number (not page times size); whenever the count
step did not fail, the returned `PageResult` carries exactly the rows that
query fetched — as persistence models, with no entity conversion — and the
echoed page number. -/
theorem findPagedWithLimit_dataQuery (r : GormRepository V M E) (ctx : Ctx)
    (cfg : PageConfig) (specs : List (Specification V)) (rows : List M)
    (hfind : r.db.findResult
      { ctx := some ctx,
        conds := specs.map (fun s => WhereCond.frag s.GetQuery s.GetValues),
        limit := some (max 1 cfg.Size), offset := some cfg.Page,
        preload := false, modelTarget := false } = Except.ok rows)
    (hcount : shouldCountPage cfg = false ∨
      ∃ n, r.db.countResult
        { ctx := some ctx,
          conds := specs.map (fun s => WhereCond.frag s.GetQuery s.GetValues),
          limit := none, offset := none, preload := false, modelTarget := true }
        = Except.ok n) :
    (r.FindPagedWithLimit ctx cfg specs).1.Data = rows ∧
    (r.FindPagedWithLimit ctx cfg specs).1.Page = cfg.Page ∧
    (r.FindPagedWithLimit ctx cfg specs).2 = none := by
  rcases hcount with hsc | ⟨n, hn⟩
  · simp [GormRepository.FindPagedWithLimit, getPreWarm_eq, DBState.modelOf,
      DBState.limitTo, DBState.offsetTo, hsc, hfind]
  · by_cases hsc : shouldCountPage cfg
    · simp [GormRepository.FindPagedWithLimit, getPreWarm_eq, DBState.modelOf,
        DBState.limitTo, DBState.offsetTo, hsc, hn, hfind]
    · simp [GormRepository.FindPagedWithLimit, getPreWarm_eq, DBState.modelOf,
        DBState.limitTo, DBState.offsetTo, hsc, hfind]

/-- Witness for `findPagedWithLimit_dataQuery` at a concrete repository. -/
theorem findPagedWithLimit_dataQuery_witness :
    (demoRepo.FindPagedWithLimit (Ctx.mk 0) ⟨0, 2, false, false⟩ []).1.Data =
      [10, 20] ∧
    (demoRepo.FindPagedWithLimit (Ctx.mk 0) ⟨0, 2, false, false⟩ []).1.Page = 0 ∧
    (demoRepo.FindPagedWithLimit (Ctx.mk 0) ⟨0, 2, false, false⟩ []).2 = none :=
  findPagedWithLimit_dataQuery demoRepo (Ctx.mk 0) ⟨0, 2, false, false⟩ []
    [10, 20] rfl (Or.inr ⟨5, rfl⟩)

/-- C2: when `FindPagedWithLimit` counts and the count query returns `R`,
the `Count` of the result is the ceiling of `R` divided by the clamped
page size `max 1 Size`; in particular a requested size `≤ 0` is clamped to
`1`, making the computed count equal to `R`. -/
theorem findPagedWithLimit_pageCount (r : GormRepository V M E) (ctx : Ctx)
    (cfg : PageConfig) (specs : List (Specification V)) (R : Int)
    (hsc : shouldCountPage cfg = true)
    (hn : r.db.countResult
      { ctx := some ctx,
        conds := specs.map (fun s => WhereCond.frag s.GetQuery s.GetValues),
        limit := none, offset := none, preload := false, modelTarget := true }
      = Except.ok R) :
    (r.FindPagedWithLimit ctx cfg specs).1.Count =
      ⌈(R : ℚ) / ((max 1 cfg.Size : Int) : ℚ)⌉ ∧
    (cfg.Size ≤ 0 → (r.FindPagedWithLimit ctx cfg specs).1.Count = R) := by
  have hpos : (0 : Int) < max 1 cfg.Size :=
    lt_of_lt_of_le one_pos (le_max_left _ _)
  have hcount : (r.FindPagedWithLimit ctx cfg specs).1.Count =
      ceilOfQuotient R (max 1 cfg.Size) := by
    simp only [GormRepository.FindPagedWithLimit, getPreWarm_eq,
      DBState.modelOf, DBState.limitTo, DBState.offsetTo, hsc, if_true, hn]
    split <;> simp
  constructor
  · rw [hcount, ceilOfQuotient_eq_ceil R _ hpos]
  · intro hS
    have hmax : max 1 cfg.Size = 1 := max_eq_left (by omega)
    rw [hcount, hmax]
    simp [ceilOfQuotient]

/-- Witness for `findPagedWithLimit_pageCount` at a concrete repository
(count `5`, size `2`, so the derived page count is `⌈5/2⌉ = 3`). -/
theorem findPagedWithLimit_pageCount_witness :
    (demoRepo.FindPagedWithLimit (Ctx.mk 0) ⟨0, 2, false, false⟩ []).1.Count =
      ⌈(5 : ℚ) / ((max 1 (2 : Int) : Int) : ℚ)⌉ ∧
    ((2 : Int) ≤ 0 →
      (demoRepo.FindPagedWithLimit (Ctx.mk 0) ⟨0, 2, false, false⟩ []).1.Count = 5) :=
  findPagedWithLimit_pageCount demoRepo (Ctx.mk 0) ⟨0, 2, false, false⟩ [] 5
    rfl rfl

/-- C3: `FindPagedWithLimit` runs its `COUNT` query iff `ForceCount` is
set, or `Page = 0` and `IgnoreCount` is unset; when the count is skipped
the whole result depends only on the find oracle (the count oracle is
never consulted) and `Count` is exactly `0` whatever the actual row count;
when it counts, a count-query error is propagated, proving the query is
executed. -/
theorem findPagedWithLimit_countGate (r1 r2 : GormRepository V M E)
    (ctx : Ctx) (cfg : PageConfig) (specs : List (Specification V))
    (hf : r1.db.findResult = r2.db.findResult) :
    (shouldCountPage cfg = true ↔
      (cfg.ForceCount = true ∨ (cfg.Page = 0 ∧ cfg.IgnoreCount = false))) ∧
    (shouldCountPage cfg = false →
      r1.FindPagedWithLimit ctx cfg specs = r2.FindPagedWithLimit ctx cfg specs ∧
      (r1.FindPagedWithLimit ctx cfg specs).1.Count = 0) ∧
    (shouldCountPage cfg = true →
      ∀ e, r1.db.countResult
        { ctx := some ctx,
          conds := specs.map (fun s => WhereCond.frag s.GetQuery s.GetValues),
          limit := none, offset := none, preload := false, modelTarget := true }
        = Except.error e →
      r1.FindPagedWithLimit ctx cfg specs =
        ({ Data := [], Count := 0, Page := cfg.Page }, some e)) := by
  refine ⟨?_, ?_, ?_⟩
  · simp [shouldCountPage]
  · intro hsc
    constructor
    · simp [GormRepository.FindPagedWithLimit, getPreWarm_eq, DBState.modelOf,
        DBState.limitTo, DBState.offsetTo, hsc, hf]
    · simp only [GormRepository.FindPagedWithLimit, getPreWarm_eq,
        DBState.modelOf, DBState.limitTo, DBState.offsetTo, hsc,
        Bool.false_eq_true, if_false]
      split <;> simp
  · intro hsc e he
    simp [GormRepository.FindPagedWithLimit, getPreWarm_eq, DBState.modelOf,
      DBState.limitTo, DBState.offsetTo, hsc, he]

/-- Witness for `findPagedWithLimit_countGate`: a skipped count
(`Page = 3`, `IgnoreCount` set, `ForceCount` unset) returns `Count = 0`
and ignores the count oracle, although the table has 5 rows. -/
theorem findPagedWithLimit_countGate_witness :
    demoRepo.FindPagedWithLimit (Ctx.mk 0) ⟨3, 2, true, false⟩ [] =
      demoRepoNoCount.FindPagedWithLimit (Ctx.mk 0) ⟨3, 2, true, false⟩ [] ∧
    (demoRepo.FindPagedWithLimit (Ctx.mk 0) ⟨3, 2, true, false⟩ []).1.Count = 0 :=
  (findPagedWithLimit_countGate demoRepo demoRepoNoCount (Ctx.mk 0)
    ⟨3, 2, true, false⟩ [] rfl).2.1 rfl

/-- C7 counterexample: `FindByModelMulti` receives a context but issues its
query on the bare handle — the builder state at its terminal `Find` call
carries no context at all, refuting that every context-taking method
forwards the caller's context to the database call. -/
theorem ctxForwarding_cx :
    (FindByModelMultiExecState (V := Unit) (E := Unit) (Ctx.mk 7) (0 : Nat)).ctx
      = none ∧
    (FindByModelMultiExecState (V := Unit) (E := Unit) (Ctx.mk 7) (0 : Nat)).ctx
      ≠ some (Ctx.mk 7) :=
  ⟨rfl, by decide⟩

/-- C7 (amended): every repository method forwards the caller's context to
the underlying database call via `WithContext` — except `FindByModelMulti`,
`FindByEntity` and `FindByEntityWithOptions`, which issue their queries on
the bare handle and never attach the context. -/
theorem ctxForwarding_amended (r : GormRepository V M E) (ctx : Ctx)
    (specs : List (Specification V)) (m : M) (x : GoAny M E)
    (eagerLoad : Bool) (a b : Int) :
    (InsertExecState (V := V) (M := M) (E := E) ctx).ctx = some ctx ∧
    (InsertDirectExecState (V := V) (M := M) (E := E) ctx).ctx = some ctx ∧
    (InsertFromInterfaceExecState (V := V) (M := M) (E := E) ctx).ctx = some ctx ∧
    (DeleteExecState (V := V) (M := M) (E := E) ctx).ctx = some ctx ∧
    (DeleteByIdExecState (V := V) (M := M) (E := E) ctx).ctx = some ctx ∧
    (UpdateExecState (V := V) (M := M) (E := E) ctx).ctx = some ctx ∧
    (UpdateDirectExecState (V := V) (M := M) (E := E) ctx).ctx = some ctx ∧
    (FindByIDExecState (V := V) (M := M) (E := E) ctx).ctx = some ctx ∧
    (FindByIDWithOptionsExecState (V := V) (M := M) (E := E) ctx eagerLoad).ctx
      = some ctx ∧
    (FindByModelExecState (V := V) (E := E) ctx m).ctx = some ctx ∧
    (r.getPreWarmDbForSelect ctx specs).ctx = some ctx ∧
    ((r.getPreWarmDbForSelect ctx specs).modelOf).ctx = some ctx ∧
    (((r.getPreWarmDbForSelect ctx specs).limitTo a).offsetTo b).ctx = some ctx ∧
    (FindByModelMultiExecState (V := V) (E := E) ctx m).ctx = none ∧
    (FindByEntityExecState (V := V) ctx x).ctx = none ∧
    (FindByEntityWithOptionsExecState (V := V) ctx x eagerLoad).ctx = none := by
  refine ⟨rfl, rfl, rfl, rfl, rfl, rfl, rfl, rfl, rfl, rfl, ?_, ?_, ?_,
    rfl, rfl, rfl⟩ <;>
  simp [getPreWarm_eq, DBState.modelOf, DBState.limitTo, DBState.offsetTo]

end GormGenerics
